import Mathlib

/-!
Shallow embedding of the core of the `dvrip` client library: the packet
codec (`src/dvrip/packet.py`), the message fragmentation and reassembly
layer and the reply demultiplexer (`src/dvrip/message.py`), the connection
bookkeeping (`src/dvrip/io.py`), and the XMMD5 password fingerprint
(`src/dvrip/login.py`).  Bytes are modelled as `Nat` (values below 256
where the source guarantees it), byte strings as `List Nat`, fallible
operations as `Option`/`Except`, and the generator-style filters as
explicit step functions on a state type.
-/

namespace DVRIP

/-! ## Packet codec (src/dvrip/packet.py) -/

/-- A DVRIP packet.  `fragment0`/`fragment1` mirror the `_fragment0` and
`_fragment1` slots of the Python class; the `fragments`/`channel` and
`fragment`/`end` properties are aliases for them. -/
structure Packet where
  session : Nat
  number : Nat
  fragment0 : Nat
  fragment1 : Nat
  type : Nat
  payload : List Nat
deriving DecidableEq, Repr

/-- Alias `Packet.fragments` for `_fragment0` (control packets). -/
def Packet.fragments (p : Packet) : Nat := p.fragment0

/-- Alias `Packet.channel` for `_fragment0` (stream data packets). -/
def Packet.channel (p : Packet) : Nat := p.fragment0

/-- Alias `Packet.fragment` for `_fragment1` (control packets). -/
def Packet.fragment (p : Packet) : Nat := p.fragment1

/-- Alias `Packet.endflag` for `_fragment1` (stream data packets); the
Python property is called `end`, a reserved word in Lean. -/
def Packet.endflag (p : Packet) : Nat := p.fragment1

def Packet.MAGIC : Nat := 0xFF
def Packet.VERSION : Nat := 0x01
def Packet.MAXLEN : Nat := 16384

/-- Little-endian bytes of a 32-bit value, as packed by `struct` code `I`. -/
def le32 (n : Nat) : List Nat :=
  [n % 256, n / 256 % 256, n / 65536 % 256, n / 16777216 % 256]

/-- Little-endian bytes of a 16-bit value, as packed by `struct` code `H`. -/
def le16 (n : Nat) : List Nat :=
  [n % 256, n / 256 % 256]

/-- Value of four little-endian bytes, as unpacked by `struct` code `I`. -/
def de32 (a b c d : Nat) : Nat := a + 256 * b + 65536 * c + 16777216 * d

/-- Value of two little-endian bytes, as unpacked by `struct` code `H`. -/
def de16 (a b : Nat) : Nat := a + 256 * b

/-- The header-field ranges enforced by `struct.pack('<BBxxIIBBHI', ...)`
together with the `assert len(self.payload) <= self.MAXLEN` in
`Packet.dump`, and the byte range of a Python `bytes` payload. -/
def Packet.valid (p : Packet) : Prop :=
  p.session < 2 ^ 32 ∧ p.number < 2 ^ 32 ∧
  p.fragment0 < 2 ^ 8 ∧ p.fragment1 < 2 ^ 8 ∧ p.type < 2 ^ 16 ∧
  p.payload.length ≤ Packet.MAXLEN ∧ ∀ b ∈ p.payload, b < 256

instance (p : Packet) : Decidable p.valid := by
  unfold Packet.valid; infer_instance

/-- The bytes written by `Packet.dump`: the fixed 20-byte little-endian
header `<BBxxIIBBHI` followed by the payload verbatim. -/
def Packet.dumpBytes (p : Packet) : List Nat :=
  Packet.MAGIC :: Packet.VERSION :: 0 :: 0 ::
  (le32 p.session ++ le32 p.number ++
   p.fragment0 :: p.fragment1 ::
   (le16 p.type ++ le32 p.payload.length ++ p.payload))

/-- `Packet.encode`: `dump` into a fresh buffer.  `struct.pack` rejects
out-of-range fields and `dump` asserts the payload bound, so encoding is
only defined on valid packets. -/
def Packet.encode (p : Packet) : Option (List Nat) :=
  if p.valid then some p.dumpBytes else none

/-- Result of `Packet.load` on a byte source: a packet plus the bytes left
in the source, a `DVRIPDecodeError`, or `blocked` when `_read` cannot be
satisfied (the real loop keeps retrying the read until it is). -/
inductive LoadResult where
  | ok (p : Packet) (rest : List Nat)
  | fail (msg : String)
  | blocked
deriving DecidableEq, Repr

/-- `Packet.load`: read exactly 20 header bytes, check magic, version and
length, then read exactly `length` payload bytes. -/
def Packet.load : List Nat → LoadResult
  | magic :: version :: _ :: _ ::
    s0 :: s1 :: s2 :: s3 :: n0 :: n1 :: n2 :: n3 ::
    f0 :: f1 :: t0 :: t1 :: l0 :: l1 :: l2 :: l3 :: rest =>
      if magic ≠ Packet.MAGIC then .fail "invalid DVRIP magic"
      else if version ≠ Packet.VERSION then .fail "unknown DVRIP version"
      else if de32 l0 l1 l2 l3 > Packet.MAXLEN then .fail "DVRIP packet too long"
      else if rest.length < de32 l0 l1 l2 l3 then .blocked
      else .ok ⟨de32 s0 s1 s2 s3, de32 n0 n1 n2 n3, f0, f1, de16 t0 t1,
                rest.take (de32 l0 l1 l2 l3)⟩
               (rest.drop (de32 l0 l1 l2 l3))
  | _ => .blocked

/-- `Packet.decode`: `load` from an in-memory buffer; the trailing
`assert buf.tell() == len(buffer)` requires the buffer to hold exactly one
packet. -/
def Packet.decode (bs : List Nat) : Option Packet :=
  match Packet.load bs with
  | .ok p rest => if rest.isEmpty then some p else none
  | _ => none

theorem de32_le32 (n : Nat) (h : n < 2 ^ 32) :
    de32 (n % 256) (n / 256 % 256) (n / 65536 % 256) (n / 16777216 % 256) = n := by
  unfold de32; omega

theorem de16_le16 (n : Nat) (h : n < 2 ^ 16) :
    de16 (n % 256) (n / 256 % 256) = n := by
  unfold de16; omega

theorem dumpBytes_length (p : Packet) :
    p.dumpBytes.length = 20 + p.payload.length := by
  simp [Packet.dumpBytes, le32, le16]; omega

/-- C2: encoding a valid packet succeeds, decoding the result restores
every field, and the encoding is exactly 20 bytes of header plus the
payload. -/
theorem C2_packet_roundtrip (p : Packet) (h : p.valid) :
    Packet.encode p = some p.dumpBytes ∧
    Packet.decode p.dumpBytes = some p ∧
    p.dumpBytes.length = 20 + p.payload.length := by
  obtain ⟨hs, hn, h0, h1, ht, hl, -⟩ := id h
  refine ⟨by simp [Packet.encode, h], ?_, dumpBytes_length p⟩
  have hlen : p.payload.length < 2 ^ 32 := by
    have : Packet.MAXLEN < 2 ^ 32 := by decide
    omega
  simp only [Packet.decode, Packet.dumpBytes, le32, le16, List.cons_append,
    List.nil_append, Packet.load, de32_le32 _ hs, de32_le32 _ hn,
    de32_le32 _ hlen, de16_le16 _ ht]
  rw [if_neg (by simp [Packet.MAGIC]), if_neg (by simp [Packet.VERSION]),
      if_neg (by omega), if_neg (by omega)]
  simp

/-- Witness for C2 at a concrete packet. -/
theorem C2_packet_roundtrip_witness :
    Packet.encode ⟨0x57, 2, 0, 0, 1001, [104, 105]⟩ =
      some (Packet.dumpBytes ⟨0x57, 2, 0, 0, 1001, [104, 105]⟩) ∧
    Packet.decode (Packet.dumpBytes ⟨0x57, 2, 0, 0, 1001, [104, 105]⟩) =
      some ⟨0x57, 2, 0, 0, 1001, [104, 105]⟩ ∧
    (Packet.dumpBytes ⟨0x57, 2, 0, 0, 1001, [104, 105]⟩).length = 20 + 2 :=
  C2_packet_roundtrip ⟨0x57, 2, 0, 0, 1001, [104, 105]⟩ (by decide)

/-! ## Message model (src/dvrip/message.py) -/

/-- `Session`: a 32-bit session identity. -/
structure Session where
  id : Nat
deriving DecidableEq, Repr

/-- The statically declared data of a message class as used by `chunks`,
`topackets`, `fromchunks` and `controlfilter`: the wire `type`, the bytes
of `dumps(self.for_json()).encode('ascii')`, and the composition
`json_to ∘ json.load` applied to the bytes read from a chunk stream. -/
structure MsgClass (M : Type) where
  type : Nat
  dumps : M → List Nat
  parse : List Nat → Except String M

/-- `bytes.rstrip(b'\x00\\')`: drop trailing NUL (0) and backslash (92)
octets. -/
def rstrip (bs : List Nat) : List Nat :=
  (bs.reverse.dropWhile (fun b => b == 0 || b == 92)).reverse

/-- A byte string is `jsonTail` when it is nonempty and does not end in a
NUL or backslash octet — true of every `json.dumps` output. -/
def jsonTail (bs : List Nat) : Bool :=
  match bs.getLast? with
  | some b => !(b == 0 || b == 92)
  | none => false

/-- Split a byte string into successive pieces of at most `size` bytes,
mirroring `[json[i:i+size] for i in range(0, len(json), size)]`.  The
fuel argument (instantiated with the list length) only makes the
recursion structural; it never runs out. -/
def chunksEvery (size : Nat) : Nat → List Nat → List (List Nat)
  | _, [] => []
  | 0, _ :: _ => []
  | fuel + 1, b :: bs =>
      (b :: bs).take size :: chunksEvery size fuel ((b :: bs).drop size)

/-- Split a byte string into successive pieces of at most
`Packet.MAXLEN` bytes. -/
def chunksOf (bs : List Nat) : List (List Nat) :=
  chunksEvery Packet.MAXLEN bs.length bs

/-- `Message.chunks`. -/
def Message.chunks (cls : MsgClass M) (m : M) : List (List Nat) :=
  chunksOf (cls.dumps m)

/-- `Message.topackets`: one packet with `fragments = 0, fragment = 0`
when the JSON fits in a single chunk, otherwise one packet per chunk with
`fragments` the chunk count and `fragment` the chunk index. -/
def Message.topackets (cls : MsgClass M) (m : M) (session : Session)
    (number : Nat) : List Packet :=
  let chunks := Message.chunks cls m
  match chunks with
  | [chunk] => [⟨session.id, number, 0, 0, cls.type, chunk⟩]
  | _ => chunks.enum.map fun ic =>
      ⟨session.id, number, chunks.length, ic.1, cls.type, ic.2⟩

/-- `Message.fromchunks`: reject an empty chunk list, right-strip the
last chunk, concatenate, and parse. -/
def Message.fromchunks (cls : MsgClass M) (chunks : List (List Nat)) :
    Except String M :=
  if h : chunks = [] then .error "no data in DVRIP packet"
  else cls.parse (chunks.dropLast ++ [rstrip (chunks.getLast h)]).flatten

/-- `Message.frompackets`: keep the nonempty payloads in arrival order and
assemble via `fromchunks`. -/
def Message.frompackets (cls : MsgClass M) (packets : List Packet) :
    Except String M :=
  Message.fromchunks cls
    ((packets.filter (fun p => !p.payload.isEmpty)).map Packet.payload)

/-! ## Reply demultiplexer (src/dvrip/message.py) -/

/-- `n & ~1` for a nonnegative `n`: clear the low bit. -/
def clearlow (n : Nat) : Nat := n - n % 2

/-- The local state of a `controlfilter` coroutine between two packets:
the `count`, `limit` and `packets` variables.  `limit = 0` means the
fragment count has not been latched yet. -/
structure CtrlState where
  count : Nat
  limit : Nat
  packets : List (Option Packet)
deriving DecidableEq, Repr

/-- The state of a freshly created control filter. -/
def CtrlState.init : CtrlState := ⟨0, 0, []⟩

/-- What a control filter yields for one packet: `NotImplemented`
(`foreign`), `None` (`consumed`), or the assembled reply (`ready`). -/
inductive CtrlOutcome (M : Type) where
  | foreign
  | consumed
  | ready (m : M)
deriving DecidableEq

/-- `if not limit: limit = max(packet.fragments, 1); packets = [None] * limit`
— the latch of the fragment count on the first matching packet. -/
def CtrlState.latch (st : CtrlState) (packet : Packet) : CtrlState :=
  if st.limit = 0 then
    { st with limit := max packet.fragments 1,
              packets := List.replicate (max packet.fragments 1) none }
  else st

/-- `packets[packet.fragment] = packet; count += 1` — the store of a
matching fragment. -/
def CtrlState.store (st : CtrlState) (packet : Packet) : CtrlState :=
  { st with packets := st.packets.set packet.fragment (some packet),
            count := st.count + 1 }

/-- The body of `controlfilter` past the foreign checks: validate the
fragment against the latched state, store it, and either keep pending or
reassemble via `frompackets`. -/
def controlstore (cls : MsgClass M) (st : CtrlState) (packet : Packet) :
    Except String (CtrlOutcome M × CtrlState) :=
  if max packet.fragments 1 ≠ st.limit then
    .error "conflicting fragment counts"
  else if packet.fragment ≥ st.limit then
    .error "invalid fragment number"
  else if (st.packets.getD packet.fragment none).isSome then
    .error "overlapping fragments"
  else if (st.store packet).count < (st.store packet).limit then
    .ok (.consumed, st.store packet)
  else
    match Message.frompackets cls
        ((st.store packet).packets.filterMap fun q => q) with
    | .ok m => .ok (.ready m, st.store packet)
    | .error e => .error e

/-- One resumption of `controlfilter cls number`: feed one packet,
producing an outcome and a successor state, or raising a
`DVRIPDecodeError`. -/
def controlstep (cls : MsgClass M) (number : Nat) (st : CtrlState)
    (packet : Packet) : Except String (CtrlOutcome M × CtrlState) :=
  if packet.type ≠ cls.type then .ok (.foreign, st)
  else if clearlow packet.number ≠ clearlow number then .ok (.foreign, st)
  else controlstore cls (st.latch packet) packet

/-- `DVRIPConnection.recv` driving a control filter over a list of
incoming packets: a `foreign` outcome raises the `stray packet` decode
error, `consumed` reads on, `ready` returns the reply; `none` means the
packet list ran out with the filter still pending. -/
def recvloop (cls : MsgClass M) (number : Nat) :
    CtrlState → List Packet → Except String (Option M)
  | _, [] => .ok none
  | st, p :: ps =>
    match controlstep cls number st p with
    | .error e => .error e
    | .ok (.foreign, _) => .error "stray packet"
    | .ok (.ready m, _) => .ok (some m)
    | .ok (.consumed, st') => recvloop cls number st' ps

/-- What a stream filter yields for one packet. -/
inductive StreamOutcome where
  | foreign
  | consumed
  | data (bs : List Nat)
deriving DecidableEq, Repr

/-- One resumption of `streamfilter type`: the outcome for the packet and
whether the filter terminates after it (`if packet.end: return`). -/
def streamstep (type : Nat) (packet : Packet) : StreamOutcome × Bool :=
  if packet.type ≠ type then (.foreign, false)
  else ((if packet.payload.isEmpty then .consumed else .data packet.payload),
        packet.endflag ≠ 0)

/-- Repeatedly pulling a stream filter, as the reader's `recv` calls do:
collect the yielded payloads in order and report whether the filter has
terminated; a `foreign` packet raises the `stray packet` decode error. -/
def streamrun (type : Nat) : List Packet → Except String (List (List Nat) × Bool)
  | [] => .ok ([], false)
  | p :: ps =>
    match streamstep type p with
    | (.foreign, _) => .error "stray packet"
    | (.consumed, done) =>
        if done then .ok ([], true)
        else (streamrun type ps).map fun r => r
    | (.data bs, done) =>
        if done then .ok ([bs], true)
        else (streamrun type ps).map fun r => (bs :: r.1, r.2)

deriving instance DecidableEq for Except

/-- A concrete message class for instantiating the filter theorems: wire
type 1001 (`ClientLoginReply`), with the raw bytes as the message body. -/
def rawcls : MsgClass (List Nat) :=
  ⟨1001, fun m => m, fun bs => .ok bs⟩

/-- C3: a packet whose type differs from the expected reply type, or
whose sequence number with the low bit cleared differs from the request
number with the low bit cleared, is `foreign` and leaves the assembly
state unchanged; in particular a filter for type 1001 and number 0
reports `foreign` for a type-1002 packet and for a type-1001 packet
numbered 57. -/
theorem C3_foreign_rejection :
    (∀ (M : Type) (cls : MsgClass M) (number : Nat) (st : CtrlState)
       (p : Packet),
      p.type ≠ cls.type ∨ clearlow p.number ≠ clearlow number →
      controlstep cls number st p = .ok (.foreign, st)) ∧
    controlstep rawcls 0 CtrlState.init ⟨0x57, 0, 0, 0, 1002, [104]⟩ =
      .ok (.foreign, CtrlState.init) ∧
    controlstep rawcls 0 CtrlState.init ⟨0x57, 57, 0, 0, 1001, [104]⟩ =
      .ok (.foreign, CtrlState.init) := by
  refine ⟨?_, by decide, by decide⟩
  intro M cls number st p h
  unfold controlstep
  rcases h with h | h
  · simp [h]
  · by_cases ht : p.type = cls.type <;> simp [ht, h]

/-- Witness for C3 at a concrete foreign packet. -/
theorem C3_foreign_rejection_witness :
    controlstep rawcls 3 CtrlState.init ⟨1, 2, 3, 4, 999, []⟩ =
      .ok (.foreign, CtrlState.init) :=
  C3_foreign_rejection.1 (List Nat) rawcls 3 CtrlState.init
    ⟨1, 2, 3, 4, 999, []⟩ (Or.inl (by decide))

/-- C4: once a control filter has latched a fragment count `L`, a
matching packet with a differing (max-with-1) `fragments` field fails
with `conflicting fragment counts`; one with fragment index at least `L`
fails with `invalid fragment number`; and one whose slot is already
occupied fails with `overlapping fragments`. -/
theorem C4_fragment_errors (M : Type) (cls : MsgClass M) (number : Nat)
    (st : CtrlState) (p : Packet)
    (htype : p.type = cls.type)
    (hnum : clearlow p.number = clearlow number)
    (hlatched : st.limit ≠ 0) :
    (max p.fragments 1 ≠ st.limit →
      controlstep cls number st p = .error "conflicting fragment counts") ∧
    (max p.fragments 1 = st.limit → p.fragment ≥ st.limit →
      controlstep cls number st p = .error "invalid fragment number") ∧
    (max p.fragments 1 = st.limit → p.fragment < st.limit →
      (st.packets.getD p.fragment none).isSome →
      controlstep cls number st p = .error "overlapping fragments") := by
  have h1 : ¬ (p.type ≠ cls.type) := by simp [htype]
  have h2 : ¬ (clearlow p.number ≠ clearlow number) := by simp [hnum]
  have hlatch : st.latch p = st := by rw [CtrlState.latch, if_neg hlatched]
  refine ⟨fun hc => ?_, fun hc hf => ?_, fun hc hf ho => ?_⟩ <;>
    rw [controlstep, if_neg h1, if_neg h2, hlatch, controlstore]
  · rw [if_pos hc]
  · rw [if_neg (by simp [hc]), if_pos hf]
  · rw [if_neg (by simp [hc]), if_neg (Nat.not_le.mpr hf), if_pos ho]

/-- Witness for C4: a latched filter (limit 2, slot 0 filled) rejecting a
conflicting count, an out-of-range index, and an overlapping fragment. -/
theorem C4_fragment_errors_witness :
    controlstep rawcls 0 ⟨1, 2, [some ⟨0x57, 0, 2, 0, 1001, [104]⟩, none]⟩
        ⟨0x57, 0, 3, 1, 1001, [105]⟩ = .error "conflicting fragment counts" ∧
    controlstep rawcls 0 ⟨1, 2, [some ⟨0x57, 0, 2, 0, 1001, [104]⟩, none]⟩
        ⟨0x57, 0, 2, 5, 1001, [105]⟩ = .error "invalid fragment number" ∧
    controlstep rawcls 0 ⟨1, 2, [some ⟨0x57, 0, 2, 0, 1001, [104]⟩, none]⟩
        ⟨0x57, 0, 2, 0, 1001, [105]⟩ = .error "overlapping fragments" :=
  ⟨(C4_fragment_errors (List Nat) rawcls 0 _ _ (by decide) (by decide)
      (by decide)).1 (by decide),
   (C4_fragment_errors (List Nat) rawcls 0 _ _ (by decide) (by decide)
      (by decide)).2.1 (by decide) (by decide),
   (C4_fragment_errors (List Nat) rawcls 0 _ _ (by decide) (by decide)
      (by decide)).2.2 (by decide) (by decide) (by decide)⟩

def helloBytes : List Nat := [104, 101, 108, 108, 111]
def worldBytes : List Nat := [119, 111, 114, 108, 100]

/-- C5: a stream filter yields the payload of every nonempty same-type
packet in arrival order, consumes empty same-type packets silently,
terminates exactly on a nonzero end flag, and reports any other type as
foreign; fed `(end=0, "hello")` then `(end=1, "world")` it yields
`"hello"`, `"world"`, then end-of-stream. -/
theorem C5_streamfilter :
    (∀ (t : Nat) (p : Packet), p.type ≠ t → streamstep t p = (.foreign, false)) ∧
    (∀ (t : Nat) (p : Packet), p.type = t → p.payload ≠ [] →
      (streamstep t p).1 = .data p.payload) ∧
    (∀ (t : Nat) (p : Packet), p.type = t → p.payload = [] →
      (streamstep t p).1 = .consumed) ∧
    (∀ (t : Nat) (p : Packet), p.type = t →
      ((streamstep t p).2 = true ↔ p.endflag ≠ 0)) ∧
    (∀ (t n1 n2 s c : Nat),
      streamrun t [⟨s, n1, c, 0, t, helloBytes⟩, ⟨s, n2, c, 1, t, worldBytes⟩] =
        .ok ([helloBytes, worldBytes], true)) := by
  refine ⟨fun t p h => by simp [streamstep, h],
          fun t p h hp => by simp [streamstep, h, hp],
          fun t p h hp => by simp [streamstep, h, hp],
          fun t p h => by simp [streamstep, h],
          fun t n1 n2 s c => ?_⟩
  simp [streamrun, streamstep, Packet.endflag, helloBytes, worldBytes,
    Except.map]

/-- Witness for C5 at a concrete foreign stream packet. -/
theorem C5_streamfilter_witness :
    streamstep 1426 ⟨0, 0, 0, 0, 1425, []⟩ = (.foreign, false) :=
  C5_streamfilter.1 1426 ⟨0, 0, 0, 0, 1425, []⟩ (by decide)

/-- C10: assembling from packets whose payloads are all empty (including
no packets at all) fails with `no data in DVRIP packet`; with at least
one nonempty chunk, only the last chunk is right-stripped of NUL and
backslash octets before parsing. -/
theorem C10_frompackets_no_data (M : Type) (cls : MsgClass M) :
    (∀ ps : List Packet, (∀ p ∈ ps, p.payload = []) →
      Message.frompackets cls ps = .error "no data in DVRIP packet") ∧
    (∀ cs : List (List Nat), cs ≠ [] →
      Message.fromchunks cls cs =
        cls.parse (cs.dropLast.flatten ++ rstrip (cs.getLastD []))) := by
  constructor
  · intro ps h
    have hf : ps.filter (fun p => !p.payload.isEmpty) = [] := by
      rw [List.filter_eq_nil_iff]
      intro p hp
      simp [h p hp]
    simp [Message.frompackets, hf, Message.fromchunks]
  · intro cs h
    rw [Message.fromchunks, dif_neg h]
    congr 1
    rw [List.flatten_append]
    simp [List.getLastD_eq_getLast?, List.getLast?_eq_getLast cs h]

/-- Witness for C10: one empty-payload packet is rejected as `no data`,
and a two-chunk message is stripped only in its final chunk. -/
theorem C10_frompackets_no_data_witness :
    Message.frompackets rawcls [⟨0, 0, 0, 0, 1001, []⟩] =
      .error "no data in DVRIP packet" ∧
    Message.fromchunks rawcls [[0, 92], [123, 0]] =
      rawcls.parse ([[0, 92], [123, 0]].dropLast.flatten ++
        rstrip ([[0, 92], [123, 0]].getLastD [])) :=
  ⟨(C10_frompackets_no_data (List Nat) rawcls).1 [⟨0, 0, 0, 0, 1001, []⟩]
     (by decide),
   (C10_frompackets_no_data (List Nat) rawcls).2 [[0, 92], [123, 0]]
     (by decide)⟩

/-! ## Connection number bookkeeping (src/dvrip/io.py) -/

/-- `DVRIPConnection.recv`'s effect on `self.number`: for every packet
read, `self.number = max(self.number, packet.number & ~1)`. -/
def recvnumber (number : Nat) (replynumbers : List Nat) : Nat :=
  replynumbers.foldl (fun num pn => max num (clearlow pn)) number

/-- `DVRIPConnection.request`'s effect on `self.number`: advance by two,
stamp the outgoing packets with the result (`self.send(self.number, ...)`),
then run `recv`; returns the stamp and the counter after the call. -/
def requestnumber (number : Nat) (replynumbers : List Nat) : Nat × Nat :=
  (number + 2, recvnumber (number + 2) replynumbers)

/-- The stamps of a sequence of `request` calls, each given the sequence
numbers of the packets its `recv` reads. -/
def requeststamps (number : Nat) : List (List Nat) → List Nat
  | [] => []
  | rs :: rss =>
    (requestnumber number rs).1 ::
      requeststamps (requestnumber number rs).2 rss

/-- Every reply packet of every request echoes that request's stamp. -/
def echoed (number : Nat) : List (List Nat) → Prop
  | [] => True
  | rs :: rss => (∀ pn ∈ rs, pn = number + 2) ∧
      echoed (recvnumber (number + 2) rs) rss

instance echoedDecidable (number : Nat) (rss : List (List Nat)) :
    Decidable (echoed number rss) :=
  match rss with
  | [] => isTrue trivial
  | rs :: rss => by
      have := echoedDecidable (recvnumber (number + 2) rs) rss
      unfold echoed
      infer_instance

theorem recvnumber_le (replynumbers : List Nat) (number : Nat) :
    number ≤ recvnumber number replynumbers := by
  induction replynumbers generalizing number with
  | nil => exact Nat.le_refl _
  | cons pn rest ih =>
      exact Nat.le_trans (Nat.le_max_left _ _) (ih (max number (clearlow pn)))

theorem recvnumber_echo (replynumbers : List Nat) (number : Nat)
    (heven : number % 2 = 0) (hecho : ∀ pn ∈ replynumbers, pn = number) :
    recvnumber number replynumbers = number := by
  induction replynumbers with
  | nil => rfl
  | cons pn rest ih =>
      have hpn : pn = number := hecho pn (List.mem_cons_self _ _)
      have hcl : clearlow pn = number := by
        subst hpn; unfold clearlow; omega
      show recvnumber (max number (clearlow pn)) rest = number
      rw [hcl, Nat.max_self]
      exact ih fun q hq => hecho q (List.mem_cons_of_mem _ hq)

/-- C7: the counter never decreases during `recv`, and across a sequence
of successful requests whose replies echo their request's number the
outgoing stamps form the arithmetic progression `number + 2, number + 4,
...` — each exactly 2 greater than the previous one. -/
theorem C7_number_monotone :
    (∀ (number : Nat) (replynumbers : List Nat),
      number ≤ recvnumber number replynumbers) ∧
    (∀ (number : Nat) (rss : List (List Nat)),
      number % 2 = 0 → echoed number rss →
      requeststamps number rss =
        (List.range rss.length).map fun i => number + 2 * (i + 1)) := by
  refine ⟨fun number rs => recvnumber_le rs number, fun number rss => ?_⟩
  induction rss generalizing number with
  | nil => intro _ _; rfl
  | cons rs rss ih =>
      intro heven hecho
      obtain ⟨hrs, hrest⟩ := hecho
      have hrecv : recvnumber (number + 2) rs = number + 2 :=
        recvnumber_echo rs (number + 2) (by omega) hrs
      show (number + 2) :: requeststamps (recvnumber (number + 2) rs) rss = _
      rw [hrecv]
      rw [ih (number + 2) (by omega) (hrecv ▸ hrest)]
      rw [List.length_cons, List.range_succ_eq_map, List.map_cons,
          List.map_map]
      refine congrArg₂ _ (by omega) (List.map_congr_left fun i _ => ?_)
      simp [Nat.succ_eq_add_one]; omega

/-- Witness for C7: two requests from an even counter, replies echoing. -/
theorem C7_number_monotone_witness :
    requeststamps 0 [[2, 2], [4]] =
      (List.range 2).map (fun i => 0 + 2 * (i + 1)) :=
  C7_number_monotone.2 0 [[2, 2], [4]] (by decide) (by decide)

/-! ## Datetime converter (src/dvrip/message.py) -/

/-- A wall-clock timestamp, the shallow image of `datetime.datetime`. -/
structure DateTime where
  year : Nat
  month : Nat
  day : Nat
  hour : Nat
  minute : Nat
  second : Nat
deriving DecidableEq, Repr

/-- `EPOCH = datetime(2000, 1, 1, 0, 0, 0)`. -/
def EPOCH : DateTime := ⟨2000, 1, 1, 0, 0, 0⟩

def NOSTRING : String := "0000-00-00 00:00:00"
def EPSTRING : String := "2000-00-00 00:00:00"

def leapyear (y : Nat) : Bool :=
  y % 4 == 0 && (y % 100 != 0 || y % 400 == 0)

def daysinmonth (y m : Nat) : Nat :=
  if m = 2 then (if leapyear y then 29 else 28)
  else if m = 4 ∨ m = 6 ∨ m = 9 ∨ m = 11 then 30
  else 31

/-- The field ranges `datetime.datetime` enforces on construction. -/
def DateTime.isValid (v : DateTime) : Bool :=
  1 ≤ v.year && v.year ≤ 9999 && 1 ≤ v.month && v.month ≤ 12 &&
  1 ≤ v.day && v.day ≤ daysinmonth v.year v.month &&
  v.hour ≤ 23 && v.minute ≤ 59 && v.second ≤ 59

/-- A sort key realising `datetime`'s field-lexicographic order (every
later field is smaller than its multiplier). -/
def DateTime.key (v : DateTime) : Nat :=
  ((((v.year * 13 + v.month) * 32 + v.day) * 24 + v.hour) * 60 + v.minute)
    * 60 + v.second

def digitval (c : Char) : Option Nat :=
  if c.isDigit then some (c.toNat - 48) else none

/-- The value of a two-digit field. -/
def digits2 (a b : Char) : Option Nat := do
  let a ← digitval a
  let b ← digitval b
  pure (a * 10 + b)

/-- `datetime.strptime(datum, '%Y-%m-%d %H:%M:%S')` on the canonical
fixed-width form: four year digits, two digits for each other field, and
the literal separators, with the field ranges checked by the `datetime`
constructor.  (CPython additionally tolerates 1-digit non-year fields;
that leniency is immaterial to the claims and not modelled.) -/
def strptime (s : String) : Option DateTime :=
  let cs := s.data
  if cs.length = 19 && cs.getD 4 'x' == '-' && cs.getD 7 'x' == '-' &&
     cs.getD 10 'x' == ' ' && cs.getD 13 'x' == ':' &&
     cs.getD 16 'x' == ':' then do
    let y1 ← digits2 (cs.getD 0 'x') (cs.getD 1 'x')
    let y0 ← digits2 (cs.getD 2 'x') (cs.getD 3 'x')
    let mo ← digits2 (cs.getD 5 'x') (cs.getD 6 'x')
    let d ← digits2 (cs.getD 8 'x') (cs.getD 9 'x')
    let h ← digits2 (cs.getD 11 'x') (cs.getD 12 'x')
    let mi ← digits2 (cs.getD 14 'x') (cs.getD 15 'x')
    let sec ← digits2 (cs.getD 17 'x') (cs.getD 18 'x')
    let v : DateTime := ⟨y1 * 100 + y0, mo, d, h, mi, sec⟩
    if v.isValid then some v else none
  else none

/-- `_json_to_datetime` on an already-validated JSON string. -/
def _json_to_datetime (datum : String) : Except String (Option DateTime) :=
  if datum = NOSTRING then .ok none
  else if datum = EPSTRING then .ok (some EPOCH)
  else match strptime datum with
    | none => .error "not a datetime string"
    | some value =>
        if value.key ≤ EPOCH.key then .error "datetime not after the epoch"
        else .ok (some value)

/-- C8: the all-zero string decodes to the absent value, the
`2000-00-00` sentinel decodes to the epoch, and every other string that
parses as a datetime no later than the epoch is rejected with a decode
error. -/
theorem C8_datetime_sentinels :
    _json_to_datetime NOSTRING = .ok none ∧
    _json_to_datetime EPSTRING = .ok (some EPOCH) ∧
    (∀ (s : String) (v : DateTime), s ≠ NOSTRING → s ≠ EPSTRING →
      strptime s = some v → v.key ≤ EPOCH.key →
      _json_to_datetime s = .error "datetime not after the epoch") := by
  refine ⟨by rfl, by rfl, fun s v h1 h2 hp hle => ?_⟩
  rw [_json_to_datetime, if_neg h1, if_neg h2, hp]
  simp [hle]

/-- Witness for C8 at the last pre-epoch second. -/
theorem C8_datetime_sentinels_witness :
    strptime "1999-12-31 23:59:59" = some ⟨1999, 12, 31, 23, 59, 59⟩ ∧
    _json_to_datetime "1999-12-31 23:59:59" =
      .error "datetime not after the epoch" :=
  ⟨by decide,
   C8_datetime_sentinels.2.2 "1999-12-31 23:59:59" ⟨1999, 12, 31, 23, 59, 59⟩
     (by decide) (by decide) (by decide) (by decide)⟩

/-! ## Login and session state (src/dvrip/io.py) -/

/-- The error taxonomy visible to `DVRIPClient.login`: decode errors,
failing statuses raised as `DVRIPRequestError`, and socket failures. -/
inductive DVRIPFailure where
  | decodeError (msg : String)
  | requestError (code : Nat)
  | ioError
deriving DecidableEq, Repr

/-- The fields of a `ClientLoginReply` that `login` consumes. -/
structure ClientLoginReply where
  status : Nat
  session : Session
  timeout : Nat
deriving DecidableEq, Repr

/-- The session/number state of a `DVRIPConnection`. -/
structure ConnState where
  session : Option Session
  number : Nat
deriving DecidableEq, Repr

/-- Modelled from the spec: the `Hash` enumeration (`XMMD5`) used by
`DVRIPClient.login` is imported from `dvrip.login`, but the copy of that
module in the sources predates it; per the spec only its hash function
(`func`, the XMMD5 transform) flows into the request. -/
structure Hash where
  func : String → String

/-- The `ClientLogin` request fields filled in by `login`. -/
structure ClientLogin where
  username : String
  passhash : String
  service : String

/-- `DVRIPClient.login`: under the precondition `self.session is None`,
set `self.session = Session(0)`, build the `ClientLogin` request, and run
the `self.request` exchange.  The exchange is abstracted as an oracle
from the request to the post-exchange `number` plus either the reply or a
raised failure; neither `send` nor `recv` ever writes `self.session`.  On
success the server-assigned session is adopted; a raised failure
propagates with the session as it stands. -/
def DVRIPClient.login (st : ConnState) (username password : String)
    (hash : Hash) (service : String)
    (exchange : ClientLogin → Nat × Except DVRIPFailure ClientLoginReply) :
    ConnState × Option DVRIPFailure :=
  let st := { st with session := some ⟨0⟩ }
  let request : ClientLogin := ⟨username, hash.func password, service⟩
  match exchange request with
  | (number, .error e) => ({ st with number := number }, some e)
  | (number, .ok reply) =>
      ({ st with number := number, session := some reply.session }, none)

/-- C6 counterexample: a login whose exchange raises a request error
terminates with the failure, yet leaves the session set (to `Session 0`),
not unset as the claim states. -/
theorem C6_login_counterexample :
    (DVRIPClient.login ⟨none, 0⟩ "admin" "" ⟨fun _ => ""⟩ "DVRIP-Web"
        (fun _ => (2, .error (.requestError 101)))).2 =
      some (.requestError 101) ∧
    ¬ (DVRIPClient.login ⟨none, 0⟩ "admin" "" ⟨fun _ => ""⟩ "DVRIP-Web"
        (fun _ => (2, .error (.requestError 101)))).1.session = none := by
  exact ⟨rfl, by simp [DVRIPClient.login]⟩

/-- C6 (amended): if login is called with the session unset and the
exchange fails at any point, the failure propagates and the session is
left set to the pre-login placeholder `Session 0` assigned at the start
of the call — not unset. -/
theorem C6_login_failure_session (st : ConnState) (username password : String)
    (hash : Hash) (service : String)
    (exchange : ClientLogin → Nat × Except DVRIPFailure ClientLoginReply)
    (e : DVRIPFailure) (number : Nat)
    (hpre : st.session = none)
    (hfail : exchange ⟨username, hash.func password, service⟩ =
      (number, .error e)) :
    DVRIPClient.login st username password hash service exchange =
      (⟨some ⟨0⟩, number⟩, some e) := by
  simp [DVRIPClient.login, hfail]

/-- Witness for C6 (amended) at a concrete failing exchange. -/
theorem C6_login_failure_session_witness :
    DVRIPClient.login ⟨none, 7⟩ "admin" "pw" ⟨fun _ => "tlJwpbo6"⟩ "DVRIP-Web"
        (fun _ => (9, .error .ioError)) =
      (⟨some ⟨0⟩, 9⟩, some .ioError) :=
  C6_login_failure_session ⟨none, 7⟩ "admin" "pw" ⟨fun _ => "tlJwpbo6"⟩
    "DVRIP-Web" (fun _ => (9, .error .ioError)) .ioError 9 rfl rfl

/-! ## XMMD5 password fingerprint (src/dvrip/login.py)

The source calls `hashlib.md5`; the MD5 compression itself is therefore
implemented here from its published definition (RFC 1321), and the claim's
concrete vectors check it. -/

/-- The 64 MD5 sine-derived constants. -/
def md5K : List Nat :=
  [0xd76aa478, 0xe8c7b756, 0x242070db, 0xc1bdceee,
   0xf57c0faf, 0x4787c62a, 0xa8304613, 0xfd469501,
   0x698098d8, 0x8b44f7af, 0xffff5bb1, 0x895cd7be,
   0x6b901122, 0xfd987193, 0xa679438e, 0x49b40821,
   0xf61e2562, 0xc040b340, 0x265e5a51, 0xe9b6c7aa,
   0xd62f105d, 0x02441453, 0xd8a1e681, 0xe7d3fbc8,
   0x21e1cde6, 0xc33707d6, 0xf4d50d87, 0x455a14ed,
   0xa9e3e905, 0xfcefa3f8, 0x676f02d9, 0x8d2a4c8a,
   0xfffa3942, 0x8771f681, 0x6d9d6122, 0xfde5380c,
   0xa4beea44, 0x4bdecfa9, 0xf6bb4b60, 0xbebfbc70,
   0x289b7ec6, 0xeaa127fa, 0xd4ef3085, 0x04881d05,
   0xd9d4d039, 0xe6db99e5, 0x1fa27cf8, 0xc4ac5665,
   0xf4292244, 0x432aff97, 0xab9423a7, 0xfc93a039,
   0x655b59c3, 0x8f0ccc92, 0xffeff47d, 0x85845dd1,
   0x6fa87e4f, 0xfe2ce6e0, 0xa3014314, 0x4e0811a1,
   0xf7537e82, 0xbd3af235, 0x2ad7d2bb, 0xeb86d391]

/-- The MD5 per-round left-rotation amounts. -/
def md5S : List Nat :=
  [7, 12, 17, 22, 7, 12, 17, 22, 7, 12, 17, 22, 7, 12, 17, 22,
   5, 9, 14, 20, 5, 9, 14, 20, 5, 9, 14, 20, 5, 9, 14, 20,
   4, 11, 16, 23, 4, 11, 16, 23, 4, 11, 16, 23, 4, 11, 16, 23,
   6, 10, 15, 21, 6, 10, 15, 21, 6, 10, 15, 21, 6, 10, 15, 21]

/-- 32-bit complement of a value below `2 ^ 32`. -/
def not32 (x : Nat) : Nat := 4294967295 - x

/-- 32-bit left rotation of a value below `2 ^ 32`. -/
def rotl32 (x s : Nat) : Nat :=
  (x * 2 ^ s + x / 2 ^ (32 - s)) % 4294967296

/-- The 16 little-endian message words of one 64-byte block. -/
def md5words (block : List Nat) : List Nat :=
  (List.range 16).map fun j =>
    de32 (block.getD (4 * j) 0) (block.getD (4 * j + 1) 0)
         (block.getD (4 * j + 2) 0) (block.getD (4 * j + 3) 0)

/-- One of the 64 MD5 rounds on the state `(a, b, c, d)`. -/
def md5round (M : List Nat) (st : Nat × Nat × Nat × Nat) (i : Nat) :
    Nat × Nat × Nat × Nat :=
  let a := st.1
  let b := st.2.1
  let c := st.2.2.1
  let d := st.2.2.2
  let fg : Nat × Nat :=
    if i < 16 then ((b &&& c) ||| (not32 b &&& d), i)
    else if i < 32 then ((d &&& b) ||| (not32 d &&& c), (5 * i + 1) % 16)
    else if i < 48 then (b ^^^ c ^^^ d, (3 * i + 5) % 16)
    else (c ^^^ (b ||| not32 d), (7 * i) % 16)
  let f := (fg.1 + a + md5K.getD i 0 + M.getD fg.2 0) % 4294967296
  (d, (b + rotl32 f (md5S.getD i 0)) % 4294967296, b, c)

/-- The MD5 compression function for one 64-byte block. -/
def md5block (st : Nat × Nat × Nat × Nat) (block : List Nat) :
    Nat × Nat × Nat × Nat :=
  let M := md5words block
  let r := (List.range 64).foldl (md5round M) st
  ((st.1 + r.1) % 4294967296, (st.2.1 + r.2.1) % 4294967296,
   (st.2.2.1 + r.2.2.1) % 4294967296, (st.2.2.2 + r.2.2.2) % 4294967296)

/-- Little-endian bytes of the 64-bit MD5 length field. -/
def le64 (n : Nat) : List Nat :=
  (List.range 8).map fun i => n / 2 ^ (8 * i) % 256

/-- MD5 padding: `0x80`, zeros to 56 mod 64, then the bit length. -/
def md5pad (msg : List Nat) : List Nat :=
  msg ++ 0x80 :: List.replicate ((119 - msg.length % 64) % 64) 0 ++
    le64 (8 * msg.length % 2 ^ 64)

/-- The MD5 digest (16 bytes) of a byte string. -/
def md5 (msg : List Nat) : List Nat :=
  let r := (chunksEvery 64 (md5pad msg).length (md5pad msg)).foldl md5block
    (0x67452301, 0xefcdab89, 0x98badcfe, 0x10325476)
  le32 r.1 ++ le32 r.2.1 ++ le32 r.2.2.1 ++ le32 r.2.2.2

/-- `_MD5MAGIC`: the ASCII codes of `digits + ascii_uppercase +
ascii_lowercase`. -/
def _MD5MAGIC : List Nat :=
  (List.range 10).map (· + 48) ++ (List.range 26).map (· + 65) ++
    (List.range 26).map (· + 97)

/-- The elements of `l[0::2]`; applied to `l.drop 1` it gives `l[1::2]`. -/
def everyOther : List Nat → List Nat
  | [] => []
  | [a] => [a]
  | a :: _ :: rest => a :: everyOther rest

/-- `md5crypt` (the XMMD5 transform): sum the MD5 digest's byte pairs
modulo `len(_MD5MAGIC)` and index `_MD5MAGIC`, keeping 8 characters. -/
def md5crypt (password : List Nat) : List Nat :=
  let mdfive := md5 password
  (((everyOther mdfive).zip (everyOther (mdfive.drop 1))).map fun ab =>
    _MD5MAGIC.getD ((ab.1 + ab.2) % _MD5MAGIC.length) 0).take 8

/-- The claim's formulation of the hash: for each of the eight adjacent
byte pairs of the digest, index the alphabet `0-9A-Za-z` with the pair's
sum modulo 62. -/
def xmmd5_specified (password : List Nat) : List Nat :=
  (List.range 8).map fun i =>
    _MD5MAGIC.getD
      (((md5 password).getD (2 * i) 0 + (md5 password).getD (2 * i + 1) 0)
        % 62) 0

theorem everyOther_cons (b : Nat) (rest : List Nat) :
    everyOther (b :: rest) = b :: everyOther (rest.drop 1) := by
  cases rest <;> rfl

theorem everyOther_zip_map (f : Nat × Nat → Nat) (l : List Nat) :
    ((everyOther l).zip (everyOther (l.drop 1))).map f =
      (List.range (l.length / 2)).map fun i =>
        f (l.getD (2 * i) 0, l.getD (2 * i + 1) 0) := by
  induction l using everyOther.induct with
  | case1 => rfl
  | case2 a => simp [everyOther]
  | case3 a b rest ih =>
      show ((a :: everyOther rest).zip (everyOther (b :: rest))).map f = _
      rw [everyOther_cons]
      show f (a, b) :: ((everyOther rest).zip (everyOther (rest.drop 1))).map f = _
      rw [ih]
      have hlen : (a :: b :: rest).length / 2 = rest.length / 2 + 1 := by
        simp [List.length_cons]; omega
      rw [hlen, List.range_succ_eq_map, List.map_cons, List.map_map]
      exact congrArg₂ _ rfl (List.map_congr_left fun i _ => by
        simp [Nat.succ_eq_add_one, Nat.mul_add])

theorem md5_length (msg : List Nat) : (md5 msg).length = 16 := by
  simp [md5, le32]

set_option maxRecDepth 40000 in
/-- C9: the XMMD5 hash is exactly the 8 characters obtained by summing
the MD5 digest's adjacent byte pairs modulo 62 and indexing `0-9A-Za-z`;
the empty password hashes to `tlJwpbo6` and `tluafed` to `OxhlwSG8`. -/
theorem C9_xmmd5 :
    (∀ password : List Nat, md5crypt password = xmmd5_specified password) ∧
    md5crypt [] = [116, 108, 74, 119, 112, 98, 111, 54] ∧
    md5crypt [116, 108, 117, 97, 102, 101, 100] =
      [79, 120, 104, 108, 119, 83, 71, 56] := by
  refine ⟨fun password => ?_, by decide, by decide⟩
  simp only [md5crypt, xmmd5_specified]
  rw [everyOther_zip_map, md5_length]
  have h62 : _MD5MAGIC.length = 62 := by decide
  rw [h62, List.take_of_length_le (by simp)]

/-! ## Fragment round trip (claim C1) -/

theorem chunksEvery_flatten (size : Nat) (hs : 1 ≤ size) (fuel : Nat) :
    ∀ bs : List Nat, bs.length ≤ fuel →
      (chunksEvery size fuel bs).flatten = bs := by
  induction fuel with
  | zero =>
      intro bs h
      cases bs with
      | nil => rfl
      | cons b bs => simp at h
  | succ fuel ih =>
      intro bs h
      cases bs with
      | nil => rfl
      | cons b bs =>
          show ((b :: bs).take size :: _).flatten = b :: bs
          rw [List.flatten_cons,
              ih ((b :: bs).drop size)
                (by simp [List.length_drop, List.length_cons] at h ⊢; omega)]
          exact List.take_append_drop size (b :: bs)

theorem chunksEvery_mem_ne_nil (size : Nat) (hs : 1 ≤ size) (fuel : Nat) :
    ∀ (bs c : List Nat), c ∈ chunksEvery size fuel bs → c ≠ [] := by
  induction fuel with
  | zero =>
      intro bs c hc
      cases bs <;> simp [chunksEvery] at hc
  | succ fuel ih =>
      intro bs c hc
      cases bs with
      | nil => simp [chunksEvery] at hc
      | cons b bs =>
          rcases List.mem_cons.mp hc with h | h
          · subst h
            cases size with
            | zero => omega
            | succ size => simp
          · exact ih _ c h

theorem chunksOf_flatten (bs : List Nat) : (chunksOf bs).flatten = bs :=
  chunksEvery_flatten Packet.MAXLEN (by decide) bs.length bs (Nat.le_refl _)

theorem chunksOf_mem_ne_nil (bs c : List Nat) (hc : c ∈ chunksOf bs) :
    c ≠ [] :=
  chunksEvery_mem_ne_nil Packet.MAXLEN (by decide) bs.length bs c hc

theorem chunksOf_ne_nil (bs : List Nat) (h : bs ≠ []) : chunksOf bs ≠ [] := by
  cases bs with
  | nil => exact absurd rfl h
  | cons b bs => simp [chunksOf, chunksEvery]

/-- A list whose last element fails the strip predicate is untouched. -/
theorem rstrip_eq_self (bs : List Nat) (b : Nat) (hb : bs.getLast? = some b)
    (h0 : b ≠ 0) (h92 : b ≠ 92) : rstrip bs = bs := by
  have hrev : bs.reverse.head? = some b := by
    rw [List.head?_reverse]; exact hb
  obtain ⟨t, ht⟩ : ∃ t, bs.reverse = b :: t := by
    cases hr : bs.reverse with
    | nil => rw [hr] at hrev; simp at hrev
    | cons x t =>
        rw [hr] at hrev
        simp at hrev
        exact ⟨t, by rw [hrev]⟩
  rw [rstrip, ht, List.dropWhile_cons]
  simp [h0, h92, ← ht]

/-- The last element of a flattened list of chunks is the last element of
the final chunk, provided that chunk is nonempty. -/
theorem flatten_getLast? (cs : List (List Nat)) (h : cs ≠ [])
    (hlast : cs.getLast h ≠ []) :
    cs.flatten.getLast? = (cs.getLast h).getLast? := by
  induction cs with
  | nil => exact absurd rfl h
  | cons c cs ih =>
      cases cs with
      | nil => simp
      | cons c' cs' =>
          have hne : (c' :: cs') ≠ [] := by simp
          have hl : (c :: c' :: cs').getLast h = (c' :: cs').getLast hne :=
            List.getLast_cons hne
          rw [hl] at hlast ⊢
          have hsome : ((c' :: cs').getLast hne).getLast? ≠ none := by
            rw [List.getLast?_eq_getLast _ hlast]; simp
          have hflat : (c' :: cs').flatten ≠ [] := by
            intro hf
            apply hsome
            rw [← ih hne hlast, hf]; rfl
          rw [List.flatten_cons, List.getLast?_append_of_ne_nil _ hflat]
          exact ih hne hlast


theorem map_getD_range (cs : List (List Nat)) :
    (List.range cs.length).map (fun i => cs.getD i []) = cs := by
  induction cs with
  | nil => rfl
  | cons c cs ih =>
      rw [List.length_cons, List.range_succ_eq_map, List.map_cons,
          List.map_map]
      refine congrArg₂ List.cons rfl ?_
      calc (List.range cs.length).map ((fun i => (c :: cs).getD i []) ∘ Nat.succ)
          = (List.range cs.length).map (fun i => cs.getD i []) :=
            List.map_congr_left fun i _ => by simp
        _ = cs := ih

theorem enumFrom_map_getD {α : Type} (cs : List (List Nat)) :
    ∀ (k : Nat) (f : Nat → List Nat → α),
      (cs.enumFrom k).map (fun ic => f ic.1 ic.2) =
        (List.range cs.length).map fun i => f (k + i) (cs.getD i []) := by
  induction cs with
  | nil => intro k f; rfl
  | cons c cs ih =>
      intro k f
      show f k c :: (cs.enumFrom (k + 1)).map _ = _
      rw [ih (k + 1) f, List.length_cons, List.range_succ_eq_map,
          List.map_cons, List.map_map]
      refine congrArg₂ List.cons (by simp) ?_
      exact List.map_congr_left fun i _ => by
        simp [Nat.succ_eq_add_one]; exact congrArg₂ f (by omega) rfl

theorem enum_map_getD {α : Type} (cs : List (List Nat))
    (f : Nat → List Nat → α) :
    cs.enum.map (fun ic => f ic.1 ic.2) =
      (List.range cs.length).map fun i => f i (cs.getD i []) := by
  have h := enumFrom_map_getD cs 0 f
  simpa [List.enum] using h

/-- The packet `topackets` emits for fragment `i` of a chunk list. -/
def fragPacket (typ : Nat) (s : Session) (n : Nat) (cs : List (List Nat))
    (i : Nat) : Packet :=
  ⟨s.id, n, if cs.length = 1 then 0 else cs.length, i, typ, cs.getD i []⟩

theorem topackets_eq (cls : MsgClass M) (m : M) (s : Session) (n : Nat) :
    Message.topackets cls m s n =
      (List.range (Message.chunks cls m).length).map
        (fragPacket cls.type s n (Message.chunks cls m)) := by
  rw [Message.topackets]
  cases hcs : Message.chunks cls m with
  | nil => rfl
  | cons c cs' =>
      cases cs' with
      | nil =>
          have h1 : List.range 1 = [0] := by decide
          simp [fragPacket, h1]
      | cons c2 rest =>
          show (c :: c2 :: rest).enum.map _ = _
          rw [enum_map_getD (c :: c2 :: rest)
            (fun i chunk => Packet.mk s.id n (c :: c2 :: rest).length i
              cls.type chunk)]
          exact List.map_congr_left fun i _ => by
            simp [fragPacket]

theorem maxfrag (N : Nat) (h : 1 ≤ N) :
    max (if N = 1 then 0 else N) 1 = N := by
  by_cases h1 : N = 1 <;> simp [h1] <;> omega

theorem nodup_length_le (miss : List Nat) (N : Nat) (hnd : miss.Nodup)
    (hlt : ∀ j ∈ miss, j < N) : miss.length ≤ N := by
  classical
  rw [← List.toFinset_card_of_nodup hnd]
  have hsub : miss.toFinset ⊆ Finset.range N := by
    intro j hj
    rw [List.mem_toFinset] at hj
    exact Finset.mem_range.mpr (hlt j hj)
  simpa using Finset.card_le_card hsub

/-- The control filter's fragment buffer when exactly the indices in
`miss` are still missing. -/
def fragBuffer (typ : Nat) (s : Session) (n : Nat) (cs : List (List Nat))
    (miss : List Nat) : List (Option Packet) :=
  (List.range cs.length).map fun i =>
    if i ∈ miss then none else some (fragPacket typ s n cs i)

theorem fragBuffer_getD (typ : Nat) (s : Session) (n : Nat)
    (cs : List (List Nat)) (miss : List Nat) (j : Nat) (hj : j < cs.length) :
    (fragBuffer typ s n cs miss).getD j none =
      if j ∈ miss then none else some (fragPacket typ s n cs j) := by
  rw [fragBuffer, List.getD_eq_getElem?_getD, List.getElem?_map,
      List.getElem?_range hj]
  rfl

theorem fragBuffer_set (typ : Nat) (s : Session) (n : Nat)
    (cs : List (List Nat)) (j : Nat) (rest : List Nat)
    (hj : j < cs.length) (hrest : j ∉ rest) :
    (fragBuffer typ s n cs (j :: rest)).set j
        (some (fragPacket typ s n cs j)) =
      fragBuffer typ s n cs rest := by
  apply List.ext_getElem?
  intro i
  by_cases hij : i = j
  · subst hij
    rw [List.getElem?_set_self', fragBuffer, fragBuffer, List.getElem?_map,
        List.getElem?_map, List.getElem?_range hj]
    simp [hrest]
  · rw [List.getElem?_set_ne (fun h => hij h.symm), fragBuffer, fragBuffer,
        List.getElem?_map, List.getElem?_map]
    by_cases hi : i < cs.length
    · rw [List.getElem?_range hi, Option.map_some', Option.map_some']
      have hmem : (i ∈ j :: rest) ↔ (i ∈ rest) := by
        simp [List.mem_cons, hij]
      simp [hmem]
    · rw [List.getElem?_eq_none (by simpa using Nat.le_of_not_lt hi)]
      rfl

theorem fragBuffer_full (typ : Nat) (s : Session) (n : Nat)
    (cs : List (List Nat)) (miss : List Nat)
    (hfull : ∀ i < cs.length, i ∈ miss) :
    fragBuffer typ s n cs miss = List.replicate cs.length none := by
  rw [List.eq_replicate_iff]
  refine ⟨by simp [fragBuffer], fun b hb => ?_⟩
  rw [fragBuffer, List.mem_map] at hb
  obtain ⟨i, hi, hbi⟩ := hb
  rw [List.mem_range] at hi
  rw [← hbi, if_pos (hfull i hi)]

theorem fragBuffer_filterMap (typ : Nat) (s : Session) (n : Nat)
    (cs : List (List Nat)) :
    (fragBuffer typ s n cs []).filterMap (fun q => q) =
      (List.range cs.length).map (fragPacket typ s n cs) := by
  rw [fragBuffer]
  have hsimp : (fun i => if i ∈ ([] : List Nat) then (none : Option Packet)
      else some (fragPacket typ s n cs i)) =
      fun i => some (fragPacket typ s n cs i) := by
    funext i; simp
  rw [hsimp]
  generalize List.range cs.length = l
  induction l with
  | nil => rfl
  | cons x l ih => simp [ih]


theorem jsonTail_spec (bs : List Nat) (h : jsonTail bs = true) :
    ∃ b, bs.getLast? = some b ∧ b ≠ 0 ∧ b ≠ 92 := by
  unfold jsonTail at h
  cases hb : bs.getLast? with
  | none => rw [hb] at h; simp at h
  | some b =>
      rw [hb] at h
      simp at h
      exact ⟨b, rfl, h.1, h.2⟩

/-- Reassembling the full fragment list (in index order) of a message
whose JSON round-trips recovers the message. -/
theorem frompackets_fragments (cls2 cls : MsgClass M) (m : M)
    (s : Session) (n : Nat)
    (hjson : jsonTail (cls.dumps m) = true)
    (hparse : cls2.parse (cls.dumps m) = .ok m) :
    Message.frompackets cls2
      ((List.range (Message.chunks cls m).length).map
        (fragPacket cls.type s n (Message.chunks cls m))) = .ok m := by
  obtain ⟨b, hb, hb0, hb92⟩ := jsonTail_spec _ hjson
  have hbs : cls.dumps m ≠ [] := by
    intro h0; rw [h0] at hb; simp at hb
  have hcsne : Message.chunks cls m ≠ [] := chunksOf_ne_nil _ hbs
  have hflat : (Message.chunks cls m).flatten = cls.dumps m :=
    chunksOf_flatten _
  have hmemne : ∀ c ∈ Message.chunks cls m, c ≠ [] := fun c hc =>
    chunksOf_mem_ne_nil _ c hc
  set cs := Message.chunks cls m
  rw [Message.frompackets]
  have hfilter :
      ((List.range cs.length).map (fragPacket cls.type s n cs)).filter
        (fun p => !p.payload.isEmpty) =
      (List.range cs.length).map (fragPacket cls.type s n cs) := by
    rw [List.filter_eq_self]
    intro p hp
    rw [List.mem_map] at hp
    obtain ⟨i, hi, hpi⟩ := hp
    rw [List.mem_range] at hi
    have hpay : p.payload = cs.getD i [] := by rw [← hpi]; rfl
    have hgd : cs.getD i [] = cs[i] := by
      rw [List.getD_eq_getElem?_getD, List.getElem?_eq_getElem hi]
      rfl
    have hne : p.payload ≠ [] := by
      rw [hpay, hgd]
      exact hmemne _ (List.getElem_mem hi)
    simpa using hne
  rw [hfilter]
  have hmap : ((List.range cs.length).map (fragPacket cls.type s n cs)).map
      Packet.payload = cs := by
    rw [List.map_map]
    exact map_getD_range cs
  rw [hmap]
  rw [Message.fromchunks, dif_neg hcsne]
  have hlastne : cs.getLast hcsne ≠ [] := hmemne _ (List.getLast_mem hcsne)
  have hlastb : (cs.getLast hcsne).getLast? = some b := by
    rw [← flatten_getLast? cs hcsne hlastne, hflat, hb]
  rw [rstrip_eq_self _ b hlastb hb0 hb92, List.dropLast_append_getLast,
      hflat, hparse]

theorem controlstep_init (cls : MsgClass M) (number : Nat) (p : Packet)
    (ht : ¬ (p.type ≠ cls.type))
    (hn : ¬ (clearlow p.number ≠ clearlow number)) :
    controlstep cls number CtrlState.init p =
      controlstep cls number
        ⟨0, max p.fragments 1, List.replicate (max p.fragments 1) none⟩ p := by
  have hmax : ¬ (max p.fragments 1 = 0) := by
    have h := Nat.le_max_right p.fragments 1; omega
  have h1 : CtrlState.latch CtrlState.init p =
      ⟨0, max p.fragments 1, List.replicate (max p.fragments 1) none⟩ := rfl
  have h2 : CtrlState.latch
      ⟨0, max p.fragments 1, List.replicate (max p.fragments 1) none⟩ p =
      ⟨0, max p.fragments 1, List.replicate (max p.fragments 1) none⟩ := by
    rw [CtrlState.latch, if_neg hmax]
  rw [controlstep, controlstep, if_neg ht, if_neg ht, if_neg hn, if_neg hn,
      h1, h2]

theorem recvloop_cons_eq (cls : MsgClass M) (n : Nat) (st st' : CtrlState)
    (p : Packet) (ps : List Packet)
    (h : controlstep cls n st p = controlstep cls n st' p) :
    recvloop cls n st (p :: ps) = recvloop cls n st' (p :: ps) := by
  rw [recvloop, recvloop, h]

theorem recvloop_init_eq (cls : MsgClass M) (n : Nat) (p : Packet)
    (ps : List Packet) (ht : ¬ (p.type ≠ cls.type))
    (hn : ¬ (clearlow p.number ≠ clearlow n)) :
    recvloop cls n CtrlState.init (p :: ps) =
      recvloop cls n
        ⟨0, max p.fragments 1, List.replicate (max p.fragments 1) none⟩
        (p :: ps) :=
  recvloop_cons_eq cls n _ _ p ps (controlstep_init cls n p ht hn)

/-- Feeding the missing fragments of a partially assembled message, in any
order, completes the reassembly. -/
theorem recvloop_fragments (cls2 cls : MsgClass M) (m : M) (s : Session)
    (n : Nat)
    (hty : cls2.type = cls.type)
    (hjson : jsonTail (cls.dumps m) = true)
    (hparse : cls2.parse (cls.dumps m) = .ok m) :
    ∀ miss : List Nat, miss ≠ [] → miss.Nodup →
      (∀ j ∈ miss, j < (Message.chunks cls m).length) →
      recvloop cls2 n
        ⟨(Message.chunks cls m).length - miss.length,
         (Message.chunks cls m).length,
         fragBuffer cls.type s n (Message.chunks cls m) miss⟩
        (miss.map (fragPacket cls.type s n (Message.chunks cls m))) =
        .ok (some m) := by
  intro miss
  induction miss with
  | nil => intro hne _ _; exact absurd rfl hne
  | cons j rest ih =>
      intro _ hnd hlt
      have hj : j < (Message.chunks cls m).length := hlt j (by simp)
      have hN : 1 ≤ (Message.chunks cls m).length := by omega
      have hjr : j ∉ rest := (List.nodup_cons.mp hnd).1
      have hndr : rest.Nodup := (List.nodup_cons.mp hnd).2
      have hlen : rest.length + 1 ≤ (Message.chunks cls m).length := by
        have h := nodup_length_le (j :: rest) _ hnd hlt
        simpa using h
      set cs := Message.chunks cls m with hcsdef
      have htype : ¬ ((fragPacket cls.type s n cs j).type ≠ cls2.type) := by
        simp [fragPacket, hty]
      have hnum :
          ¬ (clearlow (fragPacket cls.type s n cs j).number ≠ clearlow n) := by
        simp [fragPacket]
      have hlimit : ¬ (cs.length = 0) := by omega
      have hmax : max (fragPacket cls.type s n cs j).fragments 1 = cs.length := by
        show max (if cs.length = 1 then 0 else cs.length) 1 = cs.length
        exact maxfrag _ hN
      have hocc : (fragBuffer cls.type s n cs (j :: rest)).getD j none = none := by
        rw [fragBuffer_getD _ _ _ _ _ j hj, if_pos (by simp)]
      have harith : cs.length - (j :: rest).length + 1 = cs.length - rest.length := by
        simp only [List.length_cons]; omega
      have hstep : controlstep cls2 n
          ⟨cs.length - (j :: rest).length, cs.length,
           fragBuffer cls.type s n cs (j :: rest)⟩
          (fragPacket cls.type s n cs j) =
          if cs.length - rest.length < cs.length then
            .ok (.consumed, ⟨cs.length - rest.length, cs.length,
                             fragBuffer cls.type s n cs rest⟩)
          else match Message.frompackets cls2
              ((fragBuffer cls.type s n cs rest).filterMap fun q => q) with
            | .ok m' => .ok (.ready m', ⟨cs.length - rest.length, cs.length,
                                          fragBuffer cls.type s n cs rest⟩)
            | .error e => .error e := by
        have hlatch : (⟨cs.length - (j :: rest).length, cs.length,
            fragBuffer cls.type s n cs (j :: rest)⟩ : CtrlState).latch
              (fragPacket cls.type s n cs j) =
            ⟨cs.length - (j :: rest).length, cs.length,
             fragBuffer cls.type s n cs (j :: rest)⟩ := by
          rw [CtrlState.latch, if_neg hlimit]
        have hstore : (⟨cs.length - (j :: rest).length, cs.length,
            fragBuffer cls.type s n cs (j :: rest)⟩ : CtrlState).store
              (fragPacket cls.type s n cs j) =
            ⟨cs.length - rest.length, cs.length,
             fragBuffer cls.type s n cs rest⟩ := by
          show (⟨cs.length - (j :: rest).length + 1, cs.length,
              (fragBuffer cls.type s n cs (j :: rest)).set j
                (some (fragPacket cls.type s n cs j))⟩ : CtrlState) = _
          rw [harith, fragBuffer_set cls.type s n cs j rest hj hjr]
        have hD : ¬ (max (fragPacket cls.type s n cs j).fragments 1 ≠
            (⟨cs.length - (j :: rest).length, cs.length,
              fragBuffer cls.type s n cs (j :: rest)⟩ : CtrlState).limit) := by
          show ¬ (max (fragPacket cls.type s n cs j).fragments 1 ≠ cs.length)
          rw [hmax]
          exact fun hh => hh rfl
        have hE : ¬ ((fragPacket cls.type s n cs j).fragment ≥
            (⟨cs.length - (j :: rest).length, cs.length,
              fragBuffer cls.type s n cs (j :: rest)⟩ : CtrlState).limit) := by
          show ¬ (cs.length ≤ j)
          exact Nat.not_le.mpr hj
        have hF : ¬ (((⟨cs.length - (j :: rest).length, cs.length,
            fragBuffer cls.type s n cs (j :: rest)⟩ : CtrlState).packets.getD
              (fragPacket cls.type s n cs j).fragment none).isSome = true) := by
          show ¬ (((fragBuffer cls.type s n cs (j :: rest)).getD j
            none).isSome = true)
          rw [hocc]
          simp
        rw [controlstep, if_neg htype, if_neg hnum, hlatch, controlstore,
            if_neg hD, if_neg hE, if_neg hF, hstore]
      cases rest with
      | nil =>
          rw [List.map_cons, List.map_nil, recvloop, hstep]
          rw [if_neg (by simp)]
          rw [fragBuffer_filterMap,
              frompackets_fragments cls2 cls m s n hjson hparse]
      | cons j2 rest2 =>
          rw [List.map_cons, recvloop, hstep]
          rw [if_pos (by simp [List.length_cons]; omega)]
          exact ih (by simp) hndr fun i hi => hlt i (List.mem_cons_of_mem _ hi)

/-- C1: the packets of `topackets(m, s, n)`, arriving in any permutation
of their fragment indices, fed through `recv` to a control filter for a
message class of the same wire type with number `n`, reassemble to a
message equal to `m` (provided `m`'s JSON round-trips through the filter
class's parser). -/
theorem C1_fragment_idempotence (M : Type) (cls cls2 : MsgClass M) (m : M)
    (s : Session) (n : Nat) (ps : List Packet)
    (hty : cls2.type = cls.type)
    (hjson : jsonTail (cls.dumps m) = true)
    (hparse : cls2.parse (cls.dumps m) = .ok m)
    (hperm : ps.Perm (Message.topackets cls m s n)) :
    recvloop cls2 n CtrlState.init ps = .ok (some m) := by
  obtain ⟨b, hb, -, -⟩ := jsonTail_spec _ hjson
  have hbs : cls.dumps m ≠ [] := by
    intro h0; rw [h0] at hb; simp at hb
  have hcsne : Message.chunks cls m ≠ [] := chunksOf_ne_nil _ hbs
  set cs := Message.chunks cls m with hcsdef
  have hN : 1 ≤ cs.length := List.length_pos.mpr hcsne
  rw [topackets_eq] at hperm
  have hmemfrag : ∀ p ∈ ps, p = fragPacket cls.type s n cs p.fragment := by
    intro p hp
    have hpm : p ∈ (List.range cs.length).map (fragPacket cls.type s n cs) :=
      hperm.subset hp
    rw [List.mem_map] at hpm
    obtain ⟨i, hi, hpi⟩ := hpm
    rw [← hpi]
    rfl
  have hps : (ps.map Packet.fragment).map (fragPacket cls.type s n cs) = ps := by
    rw [List.map_map]
    calc ps.map (fragPacket cls.type s n cs ∘ Packet.fragment)
        = ps.map id := List.map_congr_left fun p hp => (hmemfrag p hp).symm
      _ = ps := List.map_id ps
  have hpermidx : (ps.map Packet.fragment).Perm (List.range cs.length) := by
    have h1 := hperm.map Packet.fragment
    rw [List.map_map] at h1
    have h2 : (List.range cs.length).map
        (Packet.fragment ∘ fragPacket cls.type s n cs) =
        List.range cs.length := by
      calc (List.range cs.length).map
            (Packet.fragment ∘ fragPacket cls.type s n cs)
          = (List.range cs.length).map id :=
            List.map_congr_left fun i _ => rfl
        _ = List.range cs.length := List.map_id _
    rw [h2] at h1
    exact h1
  have hnd : (ps.map Packet.fragment).Nodup :=
    hpermidx.nodup_iff.mpr (List.nodup_range _)
  have hlt : ∀ j ∈ ps.map Packet.fragment, j < cs.length := fun j hj =>
    List.mem_range.mp (hpermidx.subset hj)
  have hlenidx : (ps.map Packet.fragment).length = cs.length := by
    rw [hpermidx.length_eq, List.length_range]
  rw [← hps]
  cases hidx : ps.map Packet.fragment with
  | nil =>
      rw [hidx] at hlenidx
      simp at hlenidx
      omega
  | cons j rest =>
      rw [hidx] at hnd hlt hlenidx hpermidx
      rw [List.map_cons]
      have hmatch1 : ¬ ((fragPacket cls.type s n cs j).type ≠ cls2.type) := by
        simp [fragPacket, hty]
      have hmatch2 : ¬ (clearlow (fragPacket cls.type s n cs j).number ≠
          clearlow n) := by simp [fragPacket]
      rw [recvloop_init_eq cls2 n _ _ hmatch1 hmatch2]
      have hmax : max (fragPacket cls.type s n cs j).fragments 1 =
          cs.length := by
        show max (if cs.length = 1 then 0 else cs.length) 1 = cs.length
        exact maxfrag _ hN
      rw [hmax]
      have hfull : fragBuffer cls.type s n cs (j :: rest) =
          List.replicate cs.length none :=
        fragBuffer_full _ _ _ _ _ fun i hi =>
          hpermidx.mem_iff.mpr (List.mem_range.mpr hi)
      rw [← hfull]
      have hzero : cs.length - (j :: rest).length = 0 := by omega
      have hmain := recvloop_fragments cls2 cls m s n hty hjson hparse
        (j :: rest) (by simp) hnd hlt
      rw [← hcsdef] at hmain
      rw [hzero, List.map_cons] at hmain
      exact hmain

/-- Witness for C1: a single-fragment logout-reply-sized message round
trips through the filter (the packet list reversed, a permutation). -/
theorem C1_fragment_idempotence_witness :
    recvloop rawcls 2 CtrlState.init
        (Message.topackets rawcls [123, 125] ⟨0x57⟩ 2).reverse =
      .ok (some [123, 125]) :=
  C1_fragment_idempotence (List Nat) rawcls rawcls [123, 125] ⟨0x57⟩ 2 _
    rfl (by decide) rfl (List.reverse_perm _)

end DVRIP
